import Mathlib

/-!
# Verification of the RWKV 5.1 recurrence kernel

This file formalises the two evaluation engines of the repository's
RWKV-style linear-attention kernel:

* `rwkv5_1_recurrent` — the sequential reference recurrence
  (`src/model/experimental/rwkv5_1.py`, function `rwkv5_1_recurrent`);
* the chunked parallel engine `rwkv_inner`
  (`src/model/experimental/rwkv_inner.py`, function `rwkv_inner`).

The PyTorch code computes with floating-point tensors; here its arithmetic
is embedded with exact real numbers (`ℝ`), with `Real.log` / `Real.exp`
standing for the tensor `log` / `exp` used by the log-space decay
accumulation, and the dtype casts (`.float()`, `.to(dtype)`), which are
exact-value-preserving up to rounding, becoming identities.  Floating-point
tolerance statements of the specification therefore become exact equalities
in this semantics.

The embedding has two layers:

* a *scalar* layer: every tensor operation of the kernel acts pointwise and
  independently on each `(batch, head)` slice, so the arithmetic content of
  both engines is modelled per slice, with time-major functions
  `ℕ → ℕ → ℝ` (time, channel).  Each definition mirrors one line (and keeps
  the variable name) of the source;
* a *shaped* layer (`Tensor4`, shaped `rwkv_inner`): rank-4 tensors with
  explicit sizes, PyTorch broadcasting for elementwise ops and batched
  matmul, and the element-count check of every `view` the source performs,
  in source order.  A failing torch operation (shape mismatch, invalid
  reshape, `L % 0`) makes the result `none`.  When every check passes, the
  value of the chunked branch is obtained by running the scalar layer on
  each `(batch, head)` slice — legitimate because every tensor operation of
  the branch acts sliceweise.
-/

namespace GptCore

open Finset

/-- The two precision modes `rwkv_inner` accepts (its `assert` allows exactly
`torch.float32` and `torch.float64`). -/
inductive PrecisionDtype
  | float32
  | float64
deriving DecidableEq

/-- `precision_min_val` of `rwkv_inner.py` (lines 38-41): the clamp floor,
`0.005` for `float32` and `1e-10` for `float64`. -/
noncomputable def precision_min_val : PrecisionDtype → ℝ
  | .float32 => 0.005
  | .float64 => 1e-10

/-! ## The recurrent reference engine (`rwkv5_1.py`, lines 26-35)

Per `(batch, head)` slice: `r`, `k`, `w` are `(time, key-channel)` functions,
`v` is `(time, value-channel)`, `u` is per key-channel, the state is
`(key-channel, value-channel)`.  `K` is the key dimension (the contraction
length of `r @ ...` and of `k.mT @ v`). -/

/-- One loop iteration's state update, `kv_state = (w.mT * kv_state) + kv`
with `kv = k.mT @ v` (an outer product, since the sliced time dim is 1). -/
noncomputable def step_state (kt : ℕ → ℝ) (vt : ℕ → ℝ) (wt : ℕ → ℝ)
    (S : ℕ → ℕ → ℝ) : ℕ → ℕ → ℝ :=
  fun i j => wt i * S i j + kt i * vt j

/-- One loop iteration's output row, `r @ (kv_state + u.mT * kv)`. -/
noncomputable def step_out (K : ℕ) (rt kt : ℕ → ℝ) (vt : ℕ → ℝ) (u : ℕ → ℝ)
    (S : ℕ → ℕ → ℝ) : ℕ → ℝ :=
  fun j => ∑ i ∈ Finset.range K, rt i * (S i j + u i * (kt i * vt j))

/-- `rwkv5_1_recurrent(r_in, k_in, v_in, w_in, u, kv_state)`: loop over
`t = 0..L-1`, collecting one output row per step and threading the state;
returns `(torch.cat(out, dim=-2), kv_state)`. -/
noncomputable def rwkv5_1_recurrent (K L : ℕ) (r k v w : ℕ → ℕ → ℝ)
    (u : ℕ → ℝ) (kv_state : ℕ → ℕ → ℝ) : List (ℕ → ℝ) × (ℕ → ℕ → ℝ) :=
  (List.range L).foldl
    (fun acc t =>
      (acc.1 ++ [step_out K (r t) (k t) (v t) u acc.2],
        step_state (k t) (v t) (w t) acc.2))
    ([], kv_state)

/-- The specification's state recurrence, written directly:
`kv_state ← (w[t] ⊙ kv_state) + k[t]ᵀ @ v[t]`. -/
noncomputable def refStates (k v w : ℕ → ℕ → ℝ) (kv0 : ℕ → ℕ → ℝ) :
    ℕ → ℕ → ℕ → ℝ
  | 0 => kv0
  | t + 1 => step_state (k t) (v t) (w t) (refStates k v w kv0 t)

/-- The specification's per-timestep output,
`out[t] = r[t] @ (kv_state_t + u ⊙ (k[t]ᵀ @ v[t]))`. -/
noncomputable def refOut (K : ℕ) (r k v w : ℕ → ℕ → ℝ) (u : ℕ → ℝ)
    (kv0 : ℕ → ℕ → ℝ) (t : ℕ) : ℕ → ℝ :=
  step_out K (r t) (k t) (v t) u (refStates k v w kv0 t)

/-! ## The chunked parallel engine, scalar layer (`rwkv_inner.py`, lines 36-129)

`T` is the *effective* chunk length (after the `L % T != 0 → T = 1`
fallback, which lives in the shaped layer together with the `L == 1` fast
path).  Chunk-local views become explicit index arithmetic: chunk `n`,
chunk-local time `t`, covers global times `n*T + t` for `t < T`; the
sub-chunk views split `t` as `z*(T/2) + τ` with `z < 2`, `τ < T/2`. -/

/-- `w = w.clamp(precision_min_val)` (line 42): `torch.clamp(min=m)` is
`max · m` elementwise. -/
noncomputable def w_clamped (dt : PrecisionDtype) (w : ℕ → ℕ → ℝ)
    (t i : ℕ) : ℝ :=
  max (w t i) (precision_min_val dt)

/-- `w_log = w.float().log()` (line 45). -/
noncomputable def w_log (dt : PrecisionDtype) (w : ℕ → ℕ → ℝ) (t i : ℕ) : ℝ :=
  Real.log (w_clamped dt w t i)

/-- `wc_log = w_log.view(w.size(0),H,N,T,K)` (line 48): the chunked view of
the log decay; chunk `n`, chunk-local time `t`. -/
noncomputable def wc_log (dt : PrecisionDtype) (T : ℕ) (w : ℕ → ℕ → ℝ)
    (n t i : ℕ) : ℝ :=
  w_log dt w (n * T + t) i

/-- `wc_log_cum = wc_log.cumsum(dim=-2)` (line 49). -/
noncomputable def wc_log_cum (dt : PrecisionDtype) (T : ℕ) (w : ℕ → ℕ → ℝ)
    (n t i : ℕ) : ℝ :=
  ∑ s ∈ Finset.range (t + 1), wc_log dt T w n s i

/-- `shifted_wc_log_cum = torch.cat([zeros_like(wc_log_cum[...,:1,:]),
wc_log_cum[...,:-1,:]], dim=-2)` (line 52). -/
noncomputable def shifted_wc_log_cum (dt : PrecisionDtype) (T : ℕ)
    (w : ℕ → ℕ → ℝ) (n t i : ℕ) : ℝ :=
  if t = 0 then 0 else wc_log_cum dt T w n (t - 1) i

/-- `ws = wc_log.sum(dim=-2, keepdim=True)` (line 66), before the `exp`. -/
noncomputable def ws_log (dt : PrecisionDtype) (T : ℕ) (w : ℕ → ℕ → ℝ)
    (n i : ℕ) : ℝ :=
  ∑ s ∈ Finset.range T, wc_log dt T w n s i

/-- `ws = list(ws.mT.exp().to(r.dtype).unbind(dim=-3))` (line 72): the
full-chunk decay factor, per chunk and key channel. -/
noncomputable def ws_exp (dt : PrecisionDtype) (T : ℕ) (w : ℕ → ℕ → ℝ)
    (n i : ℕ) : ℝ :=
  Real.exp (ws_log dt T w n i)

/-- `w_inter = ws - wc_log_cum` then `.exp()` (lines 68, 73): decay from each
position to the end of its chunk. -/
noncomputable def w_inter (dt : PrecisionDtype) (T : ℕ) (w : ℕ → ℕ → ℝ)
    (n t i : ℕ) : ℝ :=
  Real.exp (ws_log dt T w n i - wc_log_cum dt T w n t i)

/-- `w_intra = wc_log_cum - wc_log` then `.exp()` (lines 70, 74): decay from
the start of the chunk to each position. -/
noncomputable def w_intra (dt : PrecisionDtype) (T : ℕ) (w : ℕ → ℕ → ℝ)
    (n t i : ℕ) : ℝ :=
  Real.exp (wc_log_cum dt T w n t i - wc_log dt T w n t i)

/-- `wc_log_offset = shifted_wc_log_cum[...,T//4:T//4+1,:]` (line 87) after
the `(…,N,2,T//2,K)` view: entry `T//4` of sub-chunk `z`, i.e. chunk-local
time `z*(T/2) + T/4`. -/
noncomputable def wc_log_offset (dt : PrecisionDtype) (T : ℕ)
    (w : ℕ → ℕ → ℝ) (n z i : ℕ) : ℝ :=
  shifted_wc_log_cum dt T w n (z * (T / 2) + T / 4) i

/-- `rr_decay = (shifted_wc_log_cum - wc_log_offset).to(precision_dtype).exp()`
(line 91), on sub-chunk `z` at local time `τ`. -/
noncomputable def rr_decay (dt : PrecisionDtype) (T : ℕ) (w : ℕ → ℕ → ℝ)
    (n z τ i : ℕ) : ℝ :=
  Real.exp (shifted_wc_log_cum dt T w n (z * (T / 2) + τ) i -
    wc_log_offset dt T w n z i)

/-- `kk_inv_decay = (wc_log_offset - wc_log_cum).to(precision_dtype).exp()`
(line 92). -/
noncomputable def kk_inv_decay (dt : PrecisionDtype) (T : ℕ) (w : ℕ → ℕ → ℝ)
    (n z τ i : ℕ) : ℝ :=
  Real.exp (wc_log_offset dt T w n z i -
    wc_log_cum dt T w n (z * (T / 2) + τ) i)

/-- The inter-sub-chunk replacement
`kk_inv_decay = (wc_log_offset[...,1:2,:,:] - wc_log_cum[...,0:1,:,:])
.to(precision_dtype).exp()` (line 103): second half's offset against the
first half's cumulative log decay (first-half local time `σ`). -/
noncomputable def kk_inv_decay2 (dt : PrecisionDtype) (T : ℕ)
    (w : ℕ → ℕ → ℝ) (n σ i : ℕ) : ℝ :=
  Real.exp (wc_log_offset dt T w n 1 i - wc_log_cum dt T w n σ i)

/-- The intra-sub-chunk attention matrix
`a = ((rr * rr_decay) @ (kk * kk_inv_decay).mT).tril(-1)
   + einsum('bhnztk,bhnztk->bhnzt', rr, uu * kk).diag_embed()`
(lines 96-98): entry `(τ, σ)` of sub-chunk `z` of chunk `n`. -/
noncomputable def a_mat (dt : PrecisionDtype) (T K : ℕ) (r k w : ℕ → ℕ → ℝ)
    (u : ℕ → ℝ) (n z τ σ : ℕ) : ℝ :=
  (if σ < τ then
    ∑ i ∈ Finset.range K,
      r (n * T + (z * (T / 2) + τ)) i * rr_decay dt T w n z τ i *
        (k (n * T + (z * (T / 2) + σ)) i * kk_inv_decay dt T w n z σ i)
  else 0) +
  (if σ = τ then
    ∑ i ∈ Finset.range K,
      r (n * T + (z * (T / 2) + τ)) i * (u i * k (n * T + (z * (T / 2) + τ)) i)
  else 0)

/-- `out = a @ vv` (line 99): the intra-sub-chunk contribution at sub-chunk
`z`, local time `τ`, value channel `j`. -/
noncomputable def out_intra (dt : PrecisionDtype) (T K : ℕ)
    (r k v w : ℕ → ℕ → ℝ) (u : ℕ → ℝ) (n z τ j : ℕ) : ℝ :=
  ∑ σ ∈ Finset.range (T / 2),
    a_mat dt T K r k w u n z τ σ * v (n * T + (z * (T / 2) + σ)) j

/-- `out[...,1:2,:,:] += ((rr * rr_decay) @ (kk * kk_inv_decay).mT) @ vv`
(lines 101-105): the second sub-chunk's queries (local time `τ`) against the
first sub-chunk's keys and values. -/
noncomputable def out_inter (dt : PrecisionDtype) (T K : ℕ)
    (r k v w : ℕ → ℕ → ℝ) (n τ j : ℕ) : ℝ :=
  ∑ σ ∈ Finset.range (T / 2),
    (∑ i ∈ Finset.range K,
      r (n * T + (T / 2 + τ)) i * rr_decay dt T w n 1 τ i *
        (k (n * T + σ) i * kk_inv_decay2 dt T w n σ i)) * v (n * T + σ) j

/-- `wkv = (k * w_inter).mT @ v` (line 110), per chunk. -/
noncomputable def wkv (dt : PrecisionDtype) (T : ℕ) (k v w : ℕ → ℕ → ℝ)
    (n i j : ℕ) : ℝ :=
  ∑ t ∈ Finset.range T, k (n * T + t) i * w_inter dt T w n t i * v (n * T + t) j

/-- The sequential chunk-state loop (lines 114-118): `states n` is the
`kv_state` entering chunk `n`; `kv_state = kv_state * ws[i] + wkv[i]`. -/
noncomputable def states (dt : PrecisionDtype) (T : ℕ) (k v w : ℕ → ℕ → ℝ)
    (kv0 : ℕ → ℕ → ℝ) : ℕ → ℕ → ℕ → ℝ
  | 0 => kv0
  | n + 1 => fun i j =>
      states dt T k v w kv0 n i j * ws_exp dt T w n i + wkv dt T k v w n i j

/-- The assembled chunked output (lines 99-127): the `(…,N,2,T//2,V)` intra
output, plus the inter-sub-chunk correction on the second half, plus
`(r * w_intra) @ states` (line 125), re-flattened to global time `t` by
`out.view(B,H,L,V)` (line 126): `n = t / T`, then sub-chunk coordinates of
`t % T`. -/
noncomputable def chunked_out (dt : PrecisionDtype) (T K : ℕ)
    (r k v w : ℕ → ℕ → ℝ) (u : ℕ → ℝ) (kv0 : ℕ → ℕ → ℝ) (t j : ℕ) : ℝ :=
  out_intra dt T K r k v w u (t / T) (t % T / (T / 2)) (t % T % (T / 2)) j +
    (if t % T / (T / 2) = 1 then
      out_inter dt T K r k v w (t / T) (t % T % (T / 2)) j
    else 0) +
    ∑ i ∈ Finset.range K,
      r t i * w_intra dt T w (t / T) (t % T) i * states dt T k v w kv0 (t / T) i j

/-- The chunked branch of `rwkv_inner` as a whole, scalar layer: the output
function and the final `kv_state` (the state after all `N = L / T` chunks). -/
noncomputable def rwkv_inner_chunked (dt : PrecisionDtype) (T K L : ℕ)
    (r k v w : ℕ → ℕ → ℝ) (u : ℕ → ℝ) (kv0 : ℕ → ℕ → ℝ) :
    (ℕ → ℕ → ℝ) × (ℕ → ℕ → ℝ) :=
  (fun t j => chunked_out dt T K r k v w u kv0 t j,
    fun i j => states dt T k v w kv0 (L / T) i j)

/-! ## Basic lemmas about the reference engine -/

theorem rwkv5_1_recurrent_succ (K L : ℕ) (r k v w : ℕ → ℕ → ℝ) (u : ℕ → ℝ)
    (kv0 : ℕ → ℕ → ℝ) :
    rwkv5_1_recurrent K (L + 1) r k v w u kv0 =
      ((rwkv5_1_recurrent K L r k v w u kv0).1 ++
        [step_out K (r L) (k L) (v L) u (rwkv5_1_recurrent K L r k v w u kv0).2],
        step_state (k L) (v L) (w L) (rwkv5_1_recurrent K L r k v w u kv0).2) := by
  unfold rwkv5_1_recurrent
  rw [List.range_succ, List.foldl_append, List.foldl_cons, List.foldl_nil]

theorem rwkv5_1_recurrent_snd (K L : ℕ) (r k v w : ℕ → ℕ → ℝ) (u : ℕ → ℝ)
    (kv0 : ℕ → ℕ → ℝ) :
    (rwkv5_1_recurrent K L r k v w u kv0).2 = refStates k v w kv0 L := by
  induction L with
  | zero => rfl
  | succ L ih => rw [rwkv5_1_recurrent_succ, refStates, ih]

theorem rwkv5_1_recurrent_length (K L : ℕ) (r k v w : ℕ → ℕ → ℝ) (u : ℕ → ℝ)
    (kv0 : ℕ → ℕ → ℝ) :
    (rwkv5_1_recurrent K L r k v w u kv0).1.length = L := by
  induction L with
  | zero => rfl
  | succ L ih => rw [rwkv5_1_recurrent_succ]; simp [ih]

theorem rwkv5_1_recurrent_getD (K L : ℕ) (r k v w : ℕ → ℕ → ℝ) (u : ℕ → ℝ)
    (kv0 : ℕ → ℕ → ℝ) (t : ℕ) (ht : t < L) :
    (rwkv5_1_recurrent K L r k v w u kv0).1.getD t (fun _ => 0) =
      refOut K r k v w u kv0 t := by
  induction L with
  | zero => omega
  | succ L ih =>
    rw [rwkv5_1_recurrent_succ]
    show ((rwkv5_1_recurrent K L r k v w u kv0).1 ++
        [step_out K (r L) (k L) (v L) u
          (rwkv5_1_recurrent K L r k v w u kv0).2]).getD t (fun _ => 0) =
      refOut K r k v w u kv0 t
    by_cases h : t < L
    · have hlen : t < (rwkv5_1_recurrent K L r k v w u kv0).1.length := by
        rw [rwkv5_1_recurrent_length]; exact h
      rw [List.getD_append _ _ _ _ hlen]
      exact ih h
    · rw [show t = L from by omega]
      have hlen : (rwkv5_1_recurrent K L r k v w u kv0).1.length = L :=
        rwkv5_1_recurrent_length K L r k v w u kv0
      rw [List.getD_append_right _ _ _ _ (le_of_eq hlen), hlen, Nat.sub_self,
        rwkv5_1_recurrent_snd]
      rfl

/-! ## The decay product and its exponential bridge

All log-space quantities of the chunked engine are sums of logarithms of the
(strictly positive) clamped decay; exponentiating them yields products of
clamped decay factors over intervals of global time. -/

theorem precision_min_val_pos (dt : PrecisionDtype) : 0 < precision_min_val dt := by
  cases dt <;> norm_num [precision_min_val]

theorem w_clamped_pos (dt : PrecisionDtype) (w : ℕ → ℕ → ℝ) (t i : ℕ) :
    0 < w_clamped dt w t i :=
  lt_max_of_lt_right (precision_min_val_pos dt)

/-- The product of clamped decay factors over global times `[a, b)`. -/
noncomputable def decayProd (dt : PrecisionDtype) (w : ℕ → ℕ → ℝ)
    (a b i : ℕ) : ℝ :=
  ∏ p ∈ Finset.Ico a b, w_clamped dt w p i

theorem decayProd_pos (dt : PrecisionDtype) (w : ℕ → ℕ → ℝ) (a b i : ℕ) :
    0 < decayProd dt w a b i :=
  Finset.prod_pos fun p _ => w_clamped_pos dt w p i

theorem decayProd_self (dt : PrecisionDtype) (w : ℕ → ℕ → ℝ) (a i : ℕ) :
    decayProd dt w a a i = 1 := by
  simp [decayProd]

theorem decayProd_mul (dt : PrecisionDtype) (w : ℕ → ℕ → ℝ) {a b c : ℕ}
    (hab : a ≤ b) (hbc : b ≤ c) (i : ℕ) :
    decayProd dt w a b i * decayProd dt w b c i = decayProd dt w a c i := by
  unfold decayProd
  exact Finset.prod_Ico_consecutive _ hab hbc

theorem decayProd_succ_top (dt : PrecisionDtype) (w : ℕ → ℕ → ℝ) {a b : ℕ}
    (hab : a ≤ b) (i : ℕ) :
    decayProd dt w a (b + 1) i = decayProd dt w a b i * w_clamped dt w b i := by
  unfold decayProd
  exact Finset.prod_Ico_succ_top hab _

/-- Exponential of a sum of logs of clamped decays over `range m`, based at
global time `a`. -/
theorem exp_sum_wcLog (dt : PrecisionDtype) (w : ℕ → ℕ → ℝ) (a m i : ℕ) :
    Real.exp (∑ s ∈ Finset.range m, Real.log (w_clamped dt w (a + s) i)) =
      decayProd dt w a (a + m) i := by
  rw [Real.exp_sum, decayProd, Finset.prod_Ico_eq_prod_range]
  simp only [Nat.add_sub_cancel_left]
  exact Finset.prod_congr rfl fun s _ => Real.exp_log (w_clamped_pos dt w (a + s) i)

theorem exp_wc_log_cum (dt : PrecisionDtype) (T : ℕ) (w : ℕ → ℕ → ℝ)
    (n t i : ℕ) :
    Real.exp (wc_log_cum dt T w n t i) =
      decayProd dt w (n * T) (n * T + (t + 1)) i := by
  rw [← exp_sum_wcLog dt w (n * T) (t + 1) i]
  rfl

theorem exp_shifted_wc_log_cum (dt : PrecisionDtype) (T : ℕ) (w : ℕ → ℕ → ℝ)
    (n t i : ℕ) :
    Real.exp (shifted_wc_log_cum dt T w n t i) =
      decayProd dt w (n * T) (n * T + t) i := by
  cases t with
  | zero => simp [shifted_wc_log_cum, decayProd_self]
  | succ t =>
    rw [shifted_wc_log_cum]
    simp only [Nat.succ_ne_zero, if_false]
    rw [exp_wc_log_cum]
    rfl

theorem exp_ws_log (dt : PrecisionDtype) (T : ℕ) (w : ℕ → ℕ → ℝ) (n i : ℕ) :
    Real.exp (ws_log dt T w n i) = decayProd dt w (n * T) (n * T + T) i := by
  rw [← exp_sum_wcLog dt w (n * T) T i]
  rfl

/-! ## Closed form of the reference recurrence (run on the clamped decay) -/

theorem refStates_closed (dt : PrecisionDtype) (k v w : ℕ → ℕ → ℝ)
    (kv0 : ℕ → ℕ → ℝ) (m c i j : ℕ) :
    refStates k v (w_clamped dt w) kv0 (m + c) i j =
      decayProd dt w m (m + c) i * refStates k v (w_clamped dt w) kv0 m i j +
        ∑ s ∈ Finset.Ico m (m + c),
          decayProd dt w (s + 1) (m + c) i * (k s i * v s j) := by
  induction c with
  | zero => simp [decayProd_self]
  | succ c ih =>
    have hterm : ∀ s ∈ Finset.Ico m (m + c),
        w_clamped dt w (m + c) i * (decayProd dt w (s + 1) (m + c) i * (k s i * v s j)) =
          decayProd dt w (s + 1) (m + c + 1) i * (k s i * v s j) := by
      intro s hs
      rw [decayProd_succ_top dt w (Finset.mem_Ico.mp hs).2 i]
      ring
    rw [show m + (c + 1) = (m + c) + 1 from rfl, refStates, step_state, ih,
      Finset.sum_Ico_succ_top (Nat.le_add_right m c),
      decayProd_succ_top dt w (Nat.le_add_right m c) i,
      decayProd_self, mul_add, Finset.mul_sum,
      Finset.sum_congr rfl hterm]
    ring

/-! ## Decay weights as products -/

theorem w_intra_eq (dt : PrecisionDtype) (T : ℕ) (w : ℕ → ℕ → ℝ) (n t i : ℕ) :
    w_intra dt T w n t i = decayProd dt w (n * T) (n * T + t) i := by
  have hsub : wc_log_cum dt T w n t i - wc_log dt T w n t i =
      ∑ s ∈ Finset.range t, Real.log (w_clamped dt w (n * T + s) i) := by
    rw [wc_log_cum, Finset.sum_range_succ]
    simp [wc_log, w_log]
  rw [w_intra, hsub, exp_sum_wcLog]

theorem w_inter_eq (dt : PrecisionDtype) (T : ℕ) (w : ℕ → ℕ → ℝ) (n t i : ℕ)
    (ht : t < T) :
    w_inter dt T w n t i = decayProd dt w (n * T + (t + 1)) (n * T + T) i := by
  rw [w_inter, Real.exp_sub, exp_ws_log, exp_wc_log_cum]
  rw [← decayProd_mul dt w (Nat.le_add_right _ _)
    (Nat.add_le_add_left ht (n * T)) i]
  exact mul_div_cancel_left₀ _ (ne_of_gt (decayProd_pos dt w _ _ i))

theorem exp_shifted_sub_cum (dt : PrecisionDtype) (T : ℕ) (w : ℕ → ℕ → ℝ)
    (n a b i : ℕ) (hab : b < a) :
    Real.exp (shifted_wc_log_cum dt T w n a i - wc_log_cum dt T w n b i) =
      decayProd dt w (n * T + (b + 1)) (n * T + a) i := by
  rw [Real.exp_sub, exp_shifted_wc_log_cum, exp_wc_log_cum]
  rw [← decayProd_mul dt w (Nat.le_add_right _ _)
    (Nat.add_le_add_left hab (n * T)) i]
  exact mul_div_cancel_left₀ _ (ne_of_gt (decayProd_pos dt w _ _ i))

/-- The sub-chunk re-basing cancels exactly: the product of the query-side
and key-side sub-chunk decays is the plain relative decay, independent of
`wc_log_offset`. -/
theorem rr_kk_decay (dt : PrecisionDtype) (T : ℕ) (w : ℕ → ℕ → ℝ)
    (n z τ σ i : ℕ) (hστ : σ < τ) :
    rr_decay dt T w n z τ i * kk_inv_decay dt T w n z σ i =
      decayProd dt w (n * T + (z * (T / 2) + σ + 1)) (n * T + (z * (T / 2) + τ)) i := by
  rw [rr_decay, kk_inv_decay, ← Real.exp_add]
  have hcol : shifted_wc_log_cum dt T w n (z * (T / 2) + τ) i -
      wc_log_offset dt T w n z i +
      (wc_log_offset dt T w n z i - wc_log_cum dt T w n (z * (T / 2) + σ) i) =
      shifted_wc_log_cum dt T w n (z * (T / 2) + τ) i -
        wc_log_cum dt T w n (z * (T / 2) + σ) i := by ring
  rw [hcol, exp_shifted_sub_cum dt T w n _ _ i (by omega)]

/-- Same cancellation for the inter-sub-chunk correction term. -/
theorem rr_kk_decay2 (dt : PrecisionDtype) (T : ℕ) (w : ℕ → ℕ → ℝ)
    (n τ σ i : ℕ) (hσ : σ < T / 2 + τ) :
    rr_decay dt T w n 1 τ i * kk_inv_decay2 dt T w n σ i =
      decayProd dt w (n * T + (σ + 1)) (n * T + (T / 2 + τ)) i := by
  rw [rr_decay, kk_inv_decay2, ← Real.exp_add]
  have hcol : shifted_wc_log_cum dt T w n (1 * (T / 2) + τ) i -
      wc_log_offset dt T w n 1 i +
      (wc_log_offset dt T w n 1 i - wc_log_cum dt T w n σ i) =
      shifted_wc_log_cum dt T w n (1 * (T / 2) + τ) i -
        wc_log_cum dt T w n σ i := by ring
  rw [hcol, show 1 * (T / 2) + τ = T / 2 + τ by ring,
    exp_shifted_sub_cum dt T w n _ _ i hσ]

/-! ## The chunk-state loop agrees with the reference states -/

theorem states_eq (dt : PrecisionDtype) (T : ℕ) (k v w : ℕ → ℕ → ℝ)
    (kv0 : ℕ → ℕ → ℝ) (n i j : ℕ) :
    states dt T k v w kv0 n i j =
      refStates k v (w_clamped dt w) kv0 (n * T) i j := by
  induction n with
  | zero => rw [Nat.zero_mul]; rfl
  | succ n ih =>
    show states dt T k v w kv0 n i j * ws_exp dt T w n i + wkv dt T k v w n i j = _
    rw [ih, ws_exp, exp_ws_log]
    rw [show (n + 1) * T = n * T + T from Nat.succ_mul n T]
    rw [refStates_closed dt k v w kv0 (n * T) T i j]
    congr 1
    · ring
    · rw [wkv, Finset.sum_Ico_eq_sum_range]
      simp only [Nat.add_sub_cancel_left]
      refine Finset.sum_congr rfl fun s hs => ?_
      rw [w_inter_eq dt T w n s i (Finset.mem_range.mp hs)]
      ring_nf

/-! ## The intra-chunk attention sums -/

/-- Proof-side normal form: the decay-weighted attention of the query at
global time `t` against keys/values at global times `[a, b)`. -/
noncomputable def attSum (dt : PrecisionDtype) (K : ℕ) (r k v w : ℕ → ℕ → ℝ)
    (t a b j : ℕ) : ℝ :=
  ∑ s ∈ Finset.Ico a b, ∑ i ∈ Finset.range K,
    decayProd dt w (s + 1) t i * (r t i * k s i) * v s j

theorem attSum_consecutive (dt : PrecisionDtype) (K : ℕ) (r k v w : ℕ → ℕ → ℝ)
    (t j : ℕ) {a b c : ℕ} (hab : a ≤ b) (hbc : b ≤ c) :
    attSum dt K r k v w t a b j + attSum dt K r k v w t b c j =
      attSum dt K r k v w t a c j :=
  Finset.sum_Ico_consecutive _ hab hbc

theorem attSum_offset (dt : PrecisionDtype) (K : ℕ) (r k v w : ℕ → ℕ → ℝ)
    (a c t j : ℕ) :
    attSum dt K r k v w t a (a + c) j =
      ∑ σ ∈ Finset.range c, ∑ i ∈ Finset.range K,
        decayProd dt w (a + σ + 1) t i * (r t i * k (a + σ) i) * v (a + σ) j := by
  rw [attSum, Finset.sum_Ico_eq_sum_range]
  simp only [Nat.add_sub_cancel_left]

theorem sum_range_ite_lt {h τ : ℕ} (hτ : τ ≤ h) (f : ℕ → ℝ) :
    ∑ σ ∈ Finset.range h, (if σ < τ then f σ else 0) =
      ∑ σ ∈ Finset.range τ, f σ := by
  rw [Finset.range_eq_Ico, ← Finset.sum_Ico_consecutive _ (Nat.zero_le τ) hτ]
  have h2 : ∑ σ ∈ Finset.Ico τ h, (if σ < τ then f σ else 0) = 0 :=
    Finset.sum_eq_zero fun σ hσ =>
      if_neg (by have := (Finset.mem_Ico.mp hσ).1; omega)
  rw [h2, add_zero, ← Finset.range_eq_Ico]
  exact Finset.sum_congr rfl fun σ hσ => if_pos (Finset.mem_range.mp hσ)

/-- The intra-sub-chunk output is the strictly-causal attention over the
sub-chunk prefix plus the `u`-weighted diagonal term. -/
theorem out_intra_eq (dt : PrecisionDtype) (T K : ℕ) (r k v w : ℕ → ℕ → ℝ)
    (u : ℕ → ℝ) (n z τ j : ℕ) (hτ : τ < T / 2) :
    out_intra dt T K r k v w u n z τ j =
      attSum dt K r k v w (n * T + (z * (T / 2) + τ)) (n * T + z * (T / 2))
          (n * T + z * (T / 2) + τ) j +
        (∑ i ∈ Finset.range K,
          r (n * T + (z * (T / 2) + τ)) i * (u i * k (n * T + (z * (T / 2) + τ)) i)) *
          v (n * T + (z * (T / 2) + τ)) j := by
  unfold out_intra a_mat
  simp only [add_mul, ite_mul, zero_mul]
  rw [Finset.sum_add_distrib, sum_range_ite_lt (le_of_lt hτ),
    Finset.sum_ite_eq', if_pos (Finset.mem_range.mpr hτ), attSum_offset]
  congr 1
  refine Finset.sum_congr rfl fun σ hσ => ?_
  rw [Finset.sum_mul]
  refine Finset.sum_congr rfl fun i _ => ?_
  rw [show n * T + z * (T / 2) + σ = n * T + (z * (T / 2) + σ) from by omega]
  rw [show n * T + (z * (T / 2) + σ) + 1 = n * T + (z * (T / 2) + σ + 1) from by omega]
  rw [← rr_kk_decay dt T w n z τ σ i (Finset.mem_range.mp hσ)]
  ring

/-- The inter-sub-chunk correction is the attention of second-half queries
over the whole first half. -/
theorem out_inter_eq (dt : PrecisionDtype) (T K : ℕ) (r k v w : ℕ → ℕ → ℝ)
    (n τ j : ℕ) :
    out_inter dt T K r k v w n τ j =
      attSum dt K r k v w (n * T + (T / 2 + τ)) (n * T) (n * T + T / 2) j := by
  unfold out_inter
  rw [attSum_offset]
  refine Finset.sum_congr rfl fun σ hσ => ?_
  rw [Finset.sum_mul]
  refine Finset.sum_congr rfl fun i _ => ?_
  rw [show n * T + σ + 1 = n * T + (σ + 1) from by omega]
  rw [← rr_kk_decay2 dt T w n τ σ i (by
    have := Finset.mem_range.mp hσ; omega)]
  ring

/-- Assembling attention, bonus diagonal and decayed entering state yields
the reference output formula. -/
theorem assemble (dt : PrecisionDtype) (T K : ℕ) (r k v w : ℕ → ℕ → ℝ)
    (u : ℕ → ℝ) (kv0 : ℕ → ℕ → ℝ) (n t' j : ℕ) :
    attSum dt K r k v w (n * T + t') (n * T) (n * T + t') j +
      (∑ i ∈ Finset.range K,
        r (n * T + t') i * (u i * k (n * T + t') i)) * v (n * T + t') j +
      (∑ i ∈ Finset.range K,
        r (n * T + t') i * w_intra dt T w n t' i * states dt T k v w kv0 n i j) =
    step_out K (r (n * T + t')) (k (n * T + t')) (v (n * T + t')) u
      (refStates k v (w_clamped dt w) kv0 (n * T + t')) j := by
  have hatt : attSum dt K r k v w (n * T + t') (n * T) (n * T + t') j =
      ∑ i ∈ Finset.range K, r (n * T + t') i *
        (∑ s ∈ Finset.Ico (n * T) (n * T + t'),
          decayProd dt w (s + 1) (n * T + t') i * (k s i * v s j)) := by
    rw [attSum, Finset.sum_comm]
    exact Finset.sum_congr rfl fun i _ => by
      rw [Finset.mul_sum]
      exact Finset.sum_congr rfl fun s _ => by ring
  have hdiag : (∑ i ∈ Finset.range K,
      r (n * T + t') i * (u i * k (n * T + t') i)) * v (n * T + t') j =
      ∑ i ∈ Finset.range K,
        r (n * T + t') i * (u i * (k (n * T + t') i * v (n * T + t') j)) := by
    rw [Finset.sum_mul]
    exact Finset.sum_congr rfl fun i _ => by ring
  have hstate : (∑ i ∈ Finset.range K,
      r (n * T + t') i * w_intra dt T w n t' i * states dt T k v w kv0 n i j) =
      ∑ i ∈ Finset.range K, r (n * T + t') i *
        (decayProd dt w (n * T) (n * T + t') i *
          refStates k v (w_clamped dt w) kv0 (n * T) i j) :=
    Finset.sum_congr rfl fun i _ => by
      rw [w_intra_eq, states_eq]; ring
  rw [hatt, hdiag, hstate]
  simp only [step_out, refStates_closed dt k v w kv0 (n * T) t']
  rw [← Finset.sum_add_distrib, ← Finset.sum_add_distrib]
  exact Finset.sum_congr rfl fun i _ => by ring

/-- The chunked engine's output at global time `n*T + t'` equals the
reference output computed from the clamped decay. -/
theorem chunked_out_eq (dt : PrecisionDtype) (T K : ℕ) (r k v w : ℕ → ℕ → ℝ)
    (u : ℕ → ℝ) (kv0 : ℕ → ℕ → ℝ) (hT : 0 < T) (hTe : Even T)
    (n t' j : ℕ) (ht' : t' < T) :
    chunked_out dt T K r k v w u kv0 (n * T + t') j =
      step_out K (r (n * T + t')) (k (n * T + t')) (v (n * T + t')) u
        (refStates k v (w_clamped dt w) kv0 (n * T + t')) j := by
  obtain ⟨c, hc⟩ := hTe
  have hh : 0 < T / 2 := by omega
  have hdiv : (n * T + t') / T = n := by
    rw [Nat.add_comm, Nat.add_mul_div_right _ _ hT, Nat.div_eq_of_lt ht',
      Nat.zero_add]
  have hmod : (n * T + t') % T = t' := by
    rw [Nat.add_comm, Nat.add_mul_mod_self_right, Nat.mod_eq_of_lt ht']
  have hτ : t' % (T / 2) < T / 2 := Nat.mod_lt _ hh
  have hzt : T / 2 * (t' / (T / 2)) + t' % (T / 2) = t' := Nat.div_add_mod t' (T / 2)
  have hz2 : t' / (T / 2) < 2 := (Nat.div_lt_iff_lt_mul hh).mpr (by omega)
  unfold chunked_out
  rw [hdiv, hmod]
  have hassem := assemble dt T K r k v w u kv0 n t' j
  rcases Nat.le_one_iff_eq_zero_or_eq_one.mp (Nat.le_of_lt_succ hz2) with hz | hz
  · have hτt : t' % (T / 2) = t' := by
      rw [hz] at hzt; simpa using hzt
    have hτ' : t' < T / 2 := by rw [hτt] at hτ; exact hτ
    rw [hz, hτt, if_neg (by decide : ¬ (0 : ℕ) = 1)]
    rw [out_intra_eq dt T K r k v w u n 0 t' j hτ']
    rw [show n * T + (0 * (T / 2) + t') = n * T + t' from by omega,
      show n * T + 0 * (T / 2) = n * T from by omega]
    linarith [hassem]
  · have hsplit : T / 2 + t' % (T / 2) = t' := by
      rw [hz] at hzt; simpa using hzt
    rw [hz, if_pos rfl]
    rw [out_intra_eq dt T K r k v w u n 1 (t' % (T / 2)) j hτ]
    rw [out_inter_eq dt T K r k v w n (t' % (T / 2)) j]
    rw [show n * T + (1 * (T / 2) + t' % (T / 2)) = n * T + t' from by omega,
      show n * T + 1 * (T / 2) = n * T + T / 2 from by omega,
      show n * T + T / 2 + t' % (T / 2) = n * T + t' from by omega,
      show n * T + (T / 2 + t' % (T / 2)) = n * T + t' from by omega]
    have hcomb := attSum_consecutive dt K r k v w (n * T + t') j
      (Nat.le_add_right (n * T) (T / 2)) (by omega : n * T + T / 2 ≤ n * T + t')
    linarith [hassem, hcomb]

/-! ## Top-level equivalence of the two engines -/

theorem w_clamped_eq_of_ge (dt : PrecisionDtype) (w : ℕ → ℕ → ℝ)
    (hw : ∀ t i, precision_min_val dt ≤ w t i) : w_clamped dt w = w := by
  funext t i
  exact max_eq_left (hw t i)

/-- For an even chunk length dividing the sequence length, and decay already
at or above the clamp floor, the chunked engine reproduces the reference
engine exactly: every output row and the final state. -/
theorem chunked_matches_recurrent (dt : PrecisionDtype) (T K L : ℕ)
    (r k v w : ℕ → ℕ → ℝ) (u : ℕ → ℝ) (kv0 : ℕ → ℕ → ℝ)
    (hT : 0 < T) (hTe : Even T) (hL : T ∣ L)
    (hw : ∀ t i, precision_min_val dt ≤ w t i) :
    (∀ t, t < L → ∀ j,
      (rwkv_inner_chunked dt T K L r k v w u kv0).1 t j =
        (rwkv5_1_recurrent K L r k v w u kv0).1.getD t (fun _ => 0) j) ∧
    (∀ i j, (rwkv_inner_chunked dt T K L r k v w u kv0).2 i j =
      (rwkv5_1_recurrent K L r k v w u kv0).2 i j) := by
  have hwc : w_clamped dt w = w := w_clamped_eq_of_ge dt w hw
  constructor
  · intro t ht j
    have h1 := chunked_out_eq dt T K r k v w u kv0 hT hTe (t / T) (t % T) j
      (Nat.mod_lt _ hT)
    rw [hwc, Nat.div_add_mod' t T] at h1
    rw [rwkv5_1_recurrent_getD K L r k v w u kv0 t ht]
    exact h1
  · intro i j
    show states dt T k v w kv0 (L / T) i j = _
    rw [states_eq, hwc, Nat.div_mul_cancel hL, rwkv5_1_recurrent_snd]

/-! ## Segment composition (streaming) -/

/-- Restriction of a time-indexed input to the suffix starting at `c`. -/
noncomputable def shiftf (c : ℕ) (f : ℕ → ℕ → ℝ) : ℕ → ℕ → ℝ :=
  fun t i => f (c + t) i

theorem refStates_shift (k v w : ℕ → ℕ → ℝ) (kv0 : ℕ → ℕ → ℝ) (L1 : ℕ) :
    ∀ c, refStates k v w kv0 (L1 + c) =
      refStates (shiftf L1 k) (shiftf L1 v) (shiftf L1 w)
        (refStates k v w kv0 L1) c := by
  intro c
  induction c with
  | zero => rfl
  | succ c ih =>
    show step_state (k (L1 + c)) (v (L1 + c)) (w (L1 + c))
        (refStates k v w kv0 (L1 + c)) = _
    rw [ih]
    rfl

/-- Exact streaming decomposition of the reference engine: run the first
`L1` steps, feed the final state into the remaining `L2` steps. -/
theorem rwkv5_1_recurrent_append (K L1 L2 : ℕ) (r k v w : ℕ → ℕ → ℝ)
    (u : ℕ → ℝ) (kv0 : ℕ → ℕ → ℝ) :
    rwkv5_1_recurrent K (L1 + L2) r k v w u kv0 =
      ((rwkv5_1_recurrent K L1 r k v w u kv0).1 ++
        (rwkv5_1_recurrent K L2 (shiftf L1 r) (shiftf L1 k) (shiftf L1 v)
          (shiftf L1 w) u (rwkv5_1_recurrent K L1 r k v w u kv0).2).1,
        (rwkv5_1_recurrent K L2 (shiftf L1 r) (shiftf L1 k) (shiftf L1 v)
          (shiftf L1 w) u (rwkv5_1_recurrent K L1 r k v w u kv0).2).2) := by
  induction L2 with
  | zero =>
    show rwkv5_1_recurrent K L1 r k v w u kv0 = _
    rw [show rwkv5_1_recurrent K 0 (shiftf L1 r) (shiftf L1 k) (shiftf L1 v)
        (shiftf L1 w) u (rwkv5_1_recurrent K L1 r k v w u kv0).2 =
        ([], (rwkv5_1_recurrent K L1 r k v w u kv0).2) from rfl]
    rw [List.append_nil]
  | succ L2 ih =>
    show rwkv5_1_recurrent K ((L1 + L2) + 1) r k v w u kv0 = _
    rw [rwkv5_1_recurrent_succ, ih, rwkv5_1_recurrent_succ]
    rw [List.append_assoc]
    rfl

/-! ## Shaped layer: rank-4 tensors with PyTorch broadcast and view checks

`Tensor4` carries explicit sizes and a total data function; `read` is the
broadcast-aware access (a size-1 dimension repeats its single entry, which
the modulo by the size realises).  Elementwise operations broadcast
dimension-wise exactly as `torch` does (equal sizes, or one side of size 1);
`matmul` is the batched matrix product (batch dims broadcast, inner dims
must agree).  A torch `RuntimeError` (incompatible broadcast, inner-dim
mismatch, invalid `view`, division by zero in `L % chunk_len`) is `none`. -/

structure Tensor4 where
  d0 : ℕ
  d1 : ℕ
  d2 : ℕ
  d3 : ℕ
  data : ℕ → ℕ → ℕ → ℕ → ℝ

namespace Tensor4

noncomputable def read (x : Tensor4) (a b c d : ℕ) : ℝ :=
  x.data (a % x.d0) (b % x.d1) (c % x.d2) (d % x.d3)

/-- Broadcast of one pair of dimension sizes, as in torch: equal, or one of
them `1`. -/
def bdim (a b : ℕ) : Option ℕ :=
  if a = b then some a else if a = 1 then some b else if b = 1 then some a else none

noncomputable def ewise (f : ℝ → ℝ → ℝ) (x y : Tensor4) : Option Tensor4 :=
  match bdim x.d0 y.d0, bdim x.d1 y.d1, bdim x.d2 y.d2, bdim x.d3 y.d3 with
  | some e0, some e1, some e2, some e3 =>
      some ⟨e0, e1, e2, e3, fun a b c d => f (x.read a b c d) (y.read a b c d)⟩
  | _, _, _, _ => none

noncomputable def mul (x y : Tensor4) : Option Tensor4 :=
  ewise (fun a b => a * b) x y

noncomputable def add (x y : Tensor4) : Option Tensor4 :=
  ewise (fun a b => a + b) x y

noncomputable def matmul (x y : Tensor4) : Option Tensor4 :=
  if x.d3 = y.d2 then
    match bdim x.d0 y.d0, bdim x.d1 y.d1 with
    | some e0, some e1 =>
        some ⟨e0, e1, x.d2, y.d3,
          fun a b c d => ∑ s ∈ Finset.range x.d3, x.read a b c s * y.read a b s d⟩
    | _, _ => none
  else none

def numel (x : Tensor4) : ℕ := x.d0 * x.d1 * x.d2 * x.d3

end Tensor4

/-- A constant-filled tensor, for concrete instances. -/
noncomputable def constT (d0 d1 d2 d3 : ℕ) (x : ℝ) : Tensor4 :=
  ⟨d0, d1, d2, d3, fun _ _ _ _ => x⟩

/-- `rwkv_inner(r,k,v,w,u,kv_state,chunk_len,precision_dtype)` with shape
semantics (`rwkv_inner.py`, lines 8-129).

* `L == 1` fast path (lines 22-26), exactly as written: `kv = k @ v` (note:
  no `.mT`), `out = r @ (kv_state + u * kv)`, `kv_state = w * kv_state + kv`,
  with torch broadcasting; any failing op gives `none`.
* chunked path: `chunk_len = 0` makes `L % T` a `ZeroDivisionError`
  (`none`); the `L % T != 0 → T = 1` fallback (line 30); then the
  element-count check of each `view` the code performs, in source order:
  `w_log.view(w.size(0),H,N,T,K)` (line 48), `r/k/v.view(B,H,N,T,{K,V})`
  (lines 77-79), the `(…,N,2,T//2,K)` views of `wc_log_cum` and
  `shifted_wc_log_cum` (lines 85-86), `u.view(1,H,1,1,1,K)` (line 90), and
  `rr/kk/vv = r/k/v.view(B,H,N,2,T//2,{K,V})` (lines 93-95).  When the
  checks pass, every tensor operation of the branch acts independently on
  each `(batch, head)` slice (`w`/`u` broadcasting over batch by `read`), so
  the value is the scalar layer (`chunked_out`, `states`) run per slice. -/
noncomputable def rwkv_inner (r k v w u kv_state : Tensor4)
    (chunk_len : ℕ) (precision_dtype : PrecisionDtype) : Option (Tensor4 × Tensor4) :=
  let B := k.d0
  let H := k.d1
  let L := k.d2
  let K := k.d3
  let V := v.d3
  if L = 1 then
    (Tensor4.matmul k v).bind fun kv =>
      (Tensor4.mul u kv).bind fun ukv =>
        (Tensor4.add kv_state ukv).bind fun su =>
          (Tensor4.matmul r su).bind fun out =>
            (Tensor4.mul w kv_state).bind fun wkvst =>
              (Tensor4.add wkvst kv).bind fun st =>
                some (out, st)
  else
    if chunk_len = 0 then none
    else
      let T := if L % chunk_len ≠ 0 then 1 else chunk_len
      let N := L / T
      if w.numel = w.d0 * H * N * T * K then
        if r.numel = B * H * N * T * K then
          if k.numel = B * H * N * T * K then
            if v.numel = B * H * N * T * V then
              if w.d0 * H * N * T * K = w.d0 * H * N * 2 * (T / 2) * K then
                if u.numel = H * K then
                  if B * H * N * T * K = B * H * N * 2 * (T / 2) * K then
                    if B * H * N * T * V = B * H * N * 2 * (T / 2) * V then
                      some
                        (⟨B, H, L, V, fun b h t j =>
                          chunked_out precision_dtype T K
                            (fun s i => r.read b h s i) (fun s i => k.read b h s i)
                            (fun s i => v.read b h s i) (fun s i => w.read b h s i)
                            (fun i => u.read 0 h 0 i)
                            (fun i j => kv_state.read b h i j) t j⟩,
                        ⟨B, H, K, V, fun b h i j =>
                          states precision_dtype T
                            (fun s i' => k.read b h s i') (fun s j' => v.read b h s j')
                            (fun s i' => w.read b h s i')
                            (fun i' j' => kv_state.read b h i' j') N i j⟩)
                    else none
                  else none
                else none
              else none
            else none
          else none
        else none
      else none

/-- On the chunked path, an odd effective chunk length (in particular the
`T = 1` fallback) always fails at the `(…,N,2,T//2,K)` reshape: with `T`
odd, `N*2*(T//2)*K ≠ N*T*K`, so `view` raises and no result is returned. -/
theorem rwkv_inner_odd_chunk_none (r k v w u kv_state : Tensor4)
    (chunk_len : ℕ) (dt : PrecisionDtype) (hL : 1 < k.d2) (hH : 0 < k.d1)
    (hK : 0 < k.d3) (hw0 : 0 < w.d0)
    (hodd : (if k.d2 % chunk_len ≠ 0 then 1 else chunk_len) % 2 = 1) :
    rwkv_inner r k v w u kv_state chunk_len dt = none := by
  simp only [rwkv_inner]
  rw [if_neg (show ¬ k.d2 = 1 by omega)]
  by_cases h0 : chunk_len = 0
  · rw [if_pos h0]
  · rw [if_neg h0]
    set T := if k.d2 % chunk_len ≠ 0 then 1 else chunk_len with hTdef
    have hTpos : 0 < T := by omega
    have hTle : T ≤ k.d2 := by
      rw [hTdef]
      by_cases hmod : k.d2 % chunk_len ≠ 0
      · rw [if_pos hmod]; omega
      · rw [if_neg hmod]
        push_neg at hmod
        exact Nat.le_of_dvd (by omega) (Nat.dvd_of_mod_eq_zero hmod)
    have hN : 0 < k.d2 / T := Nat.div_pos hTle hTpos
    have hA : 0 < w.d0 * k.d1 * (k.d2 / T) :=
      Nat.mul_pos (Nat.mul_pos hw0 hH) hN
    have hkey : ¬ (w.d0 * k.d1 * (k.d2 / T) * T * k.d3 =
        w.d0 * k.d1 * (k.d2 / T) * 2 * (T / 2) * k.d3) := by
      intro heq
      have h1 := Nat.eq_of_mul_eq_mul_right hK heq
      rw [mul_assoc (w.d0 * k.d1 * (k.d2 / T)) 2 (T / 2)] at h1
      have h2 := Nat.eq_of_mul_eq_mul_left hA h1
      omega
    split_ifs with h1 h2 h3 h4 <;> rfl

/-- With all dimensions `1` (the only shapes the `L == 1` fast path accepts,
since `k @ v` needs `K = 1`), the fast path succeeds for every decay value —
including zero — and uses the decay exactly as given, with no clamping. -/
theorem rwkv_inner_L1_scalar (ρ κ ν ω υ σ : ℝ) (chunk_len : ℕ)
    (dt : PrecisionDtype) :
    rwkv_inner (constT 1 1 1 1 ρ) (constT 1 1 1 1 κ) (constT 1 1 1 1 ν)
      (constT 1 1 1 1 ω) (constT 1 1 1 1 υ) (constT 1 1 1 1 σ) chunk_len dt =
      some (constT 1 1 1 1 (ρ * (σ + υ * (κ * ν))),
        constT 1 1 1 1 (ω * σ + κ * ν)) := by
  simp only [rwkv_inner, constT, Tensor4.matmul, Tensor4.mul, Tensor4.add,
    Tensor4.ewise, Tensor4.bdim, Tensor4.read, if_pos, Option.bind]
  norm_num [Finset.sum_range_one]

/-! ## Claim C3: the `L == 1` fast path -/

/-- C3: the claim says that for `L == 1` the chunked engine degenerates
exactly to `out = r @ (kv_state + u * (kᵀ @ v))`.  The code computes
`kv = k @ v` with no transpose (`rwkv_inner.py` line 23): `k` is
`(B,H,1,K)` and `v` is `(B,H,1,V)`, so the matrix product's inner
dimensions are `K` and `1` and the call raises a shape error for every
`K > 1` instead of returning the single-step result.  This theorem
evaluates the code at such inputs: the fast path returns nothing. -/
theorem C3_L1_fast_path_error (r k v w u kv_state : Tensor4)
    (chunk_len : ℕ) (dt : PrecisionDtype) (hL : k.d2 = 1) (hv : v.d2 = 1)
    (hK : 1 < k.d3) :
    rwkv_inner r k v w u kv_state chunk_len dt = none := by
  simp only [rwkv_inner]
  rw [if_pos hL]
  have hmm : Tensor4.matmul k v = none := by
    simp only [Tensor4.matmul]
    rw [if_neg (show ¬ k.d3 = v.d2 by omega)]
  rw [hmm]
  rfl

/-- C3 witness: a concrete `L = 1`, `K = 2` call crashes. -/
theorem C3_witness :
    (constT 1 1 1 2 (1 : ℝ)).d2 = 1 ∧ 1 < (constT 1 1 1 2 (1 : ℝ)).d3 ∧
    rwkv_inner (constT 1 1 1 2 1) (constT 1 1 1 2 1) (constT 1 1 1 1 1)
      (constT 1 1 1 2 1) (constT 1 1 1 2 1) (constT 1 1 2 1 1) 32
      PrecisionDtype.float32 = none :=
  ⟨rfl, by decide,
    C3_L1_fast_path_error (constT 1 1 1 2 1) (constT 1 1 1 2 1)
      (constT 1 1 1 1 1) (constT 1 1 1 2 1) (constT 1 1 1 2 1)
      (constT 1 1 2 1 1) 32 PrecisionDtype.float32 rfl rfl (by decide)⟩

/-! ## Claim C4: the `T = 1` fallback for non-exact chunk division -/

/-- C4: the claim (and the code's own comment, `rwkv_inner.py` lines 28-30)
says a non-exact chunk division silently degrades to `T = 1` and completes.
In fact the fallback sets `T = 1` and then the `(…,N,2,T//2,K)` reshape of
line 85 needs `N*2*(T//2)*K = N*T*K` elements, which fails for `T = 1`
(`T//2 = 0`), so every such call crashes instead of completing. -/
theorem C4_fallback_crashes (r k v w u kv_state : Tensor4) (chunk_len : ℕ)
    (dt : PrecisionDtype) (hL : 1 < k.d2) (hH : 0 < k.d1) (hK : 0 < k.d3)
    (hw0 : 0 < w.d0) (hmod : k.d2 % chunk_len ≠ 0) :
    rwkv_inner r k v w u kv_state chunk_len dt = none :=
  rwkv_inner_odd_chunk_none r k v w u kv_state chunk_len dt hL hH hK hw0
    (by rw [if_pos hmod])

/-- C4 witness: `L = 3`, `chunk_len = 2` (so `L % T ≠ 0`) crashes. -/
theorem C4_witness :
    3 % 2 ≠ 0 ∧
    rwkv_inner (constT 1 1 3 1 1) (constT 1 1 3 1 1) (constT 1 1 3 1 1)
      (constT 1 1 3 1 1) (constT 1 1 1 1 1) (constT 1 1 1 1 0) 2
      PrecisionDtype.float32 = none :=
  ⟨by decide,
    C4_fallback_crashes (constT 1 1 3 1 1) (constT 1 1 3 1 1)
      (constT 1 1 3 1 1) (constT 1 1 3 1 1) (constT 1 1 1 1 1)
      (constT 1 1 1 1 0) 2 PrecisionDtype.float32 (by decide) (by decide)
      (by decide) (by decide) (by decide)⟩

/-! ## Claim C10: odd effective chunk lengths never return -/

/-- C10: for `L > 1`, any odd effective chunk length — `T = 1` from the
fallback, or an odd configured `chunk_len` dividing `L` — makes the
sub-chunk reshape (`rwkv_inner.py` lines 85-95) fail, so the chunked path
yields a result only when the effective `T` is even. -/
theorem C10_odd_chunk_undefined (r k v w u kv_state : Tensor4)
    (chunk_len : ℕ) (dt : PrecisionDtype) (hL : 1 < k.d2) (hH : 0 < k.d1)
    (hK : 0 < k.d3) (hw0 : 0 < w.d0)
    (hodd : Odd (if k.d2 % chunk_len ≠ 0 then 1 else chunk_len)) :
    rwkv_inner r k v w u kv_state chunk_len dt = none :=
  rwkv_inner_odd_chunk_none r k v w u kv_state chunk_len dt hL hH hK hw0
    (Nat.odd_iff.mp hodd)

/-- C10 witness: `L = 6` with the odd divisor `chunk_len = 3` crashes. -/
theorem C10_witness :
    Odd (if 6 % 3 ≠ 0 then 1 else 3) ∧
    rwkv_inner (constT 1 1 6 1 1) (constT 1 1 6 1 1) (constT 1 1 6 1 1)
      (constT 1 1 6 1 1) (constT 1 1 1 1 1) (constT 1 1 1 1 0) 3
      PrecisionDtype.float32 = none :=
  ⟨by decide,
    C10_odd_chunk_undefined (constT 1 1 6 1 1) (constT 1 1 6 1 1)
      (constT 1 1 6 1 1) (constT 1 1 6 1 1) (constT 1 1 1 1 1)
      (constT 1 1 1 1 0) 3 PrecisionDtype.float32 (by decide) (by decide)
      (by decide) (by decide) (by decide)⟩

/-! ## Claim C9: shape-mismatch behaviour -/

/-- C9 (amended): the engine performs no up-front validation.  A mismatched
`r`/`k` key dimension does fail — the `r.view(B,H,N,T,K)` of line 77
cannot re-view `B*H*L*Kr` elements — but only part-way through the
computation, and `chunk_len = 0` fails at the `L % T` of line 30; while
broadcast-compatible head-dimension mismatches are accepted silently (see
the counterexample). -/
theorem C9_shape_mismatch_behavior (r k v w u kv_state : Tensor4)
    (chunk_len : ℕ) (dt : PrecisionDtype) (hL : 1 < k.d2)
    (hB : r.d0 = k.d0) (hH : r.d1 = k.d1) (hLr : r.d2 = k.d2)
    (hKr : r.d3 ≠ k.d3) (hB0 : 0 < k.d0) (hH0 : 0 < k.d1) :
    rwkv_inner r k v w u kv_state chunk_len dt = none ∧
    rwkv_inner r k v w u kv_state 0 dt = none := by
  have hchain : ∀ cl : ℕ, cl ≠ 0 → rwkv_inner r k v w u kv_state cl dt = none := by
    intro cl h0
    simp only [rwkv_inner]
    rw [if_neg (show ¬ k.d2 = 1 by omega), if_neg h0]
    set T := if k.d2 % cl ≠ 0 then 1 else cl with hTdef
    have hdvd : T ∣ k.d2 := by
      rw [hTdef]
      by_cases hm : k.d2 % cl ≠ 0
      · rw [if_pos hm]; exact one_dvd _
      · rw [if_neg hm]
        push_neg at hm
        exact Nat.dvd_of_mod_eq_zero hm
    have hNT : k.d2 / T * T = k.d2 := Nat.div_mul_cancel hdvd
    have hAB : 0 < k.d0 * k.d1 * k.d2 :=
      Nat.mul_pos (Nat.mul_pos hB0 hH0) (by omega)
    have hkey : ¬ (r.numel = k.d0 * k.d1 * (k.d2 / T) * T * k.d3) := by
      intro heq
      simp only [Tensor4.numel] at heq
      rw [hB, hH, hLr, mul_assoc (k.d0 * k.d1) (k.d2 / T) T, hNT] at heq
      exact hKr (Nat.eq_of_mul_eq_mul_left hAB heq)
    split_ifs <;> rfl
  constructor
  · by_cases h0 : chunk_len = 0
    · subst h0
      simp only [rwkv_inner]
      rw [if_neg (show ¬ k.d2 = 1 by omega)]
      rfl
    · exact hchain chunk_len h0
  · simp only [rwkv_inner]
    rw [if_neg (show ¬ k.d2 = 1 by omega)]
    rfl

/-- C9 witness: a concrete call with `r` key-dim `2` against `k` key-dim
`1` returns nothing. -/
theorem C9_witness :
    (constT 1 1 2 2 (1 : ℝ)).d3 ≠ (constT 1 1 2 1 (1 : ℝ)).d3 ∧
    rwkv_inner (constT 1 1 2 2 1) (constT 1 1 2 1 1) (constT 1 1 2 1 1)
      (constT 1 1 2 1 1) (constT 1 1 1 1 1) (constT 1 1 1 1 0) 2
      PrecisionDtype.float32 = none :=
  ⟨by decide,
    (C9_shape_mismatch_behavior (constT 1 1 2 2 1) (constT 1 1 2 1 1)
      (constT 1 1 2 1 1) (constT 1 1 2 1 1) (constT 1 1 1 1 1)
      (constT 1 1 1 1 0) 2 PrecisionDtype.float32 (by decide) rfl rfl rfl
      (by decide) (by decide) (by decide)).1⟩

/-- C9 counterexample: the claim as stated says every mismatched call fails
with an error before computation and never returns a result.  But a bonus
tensor `u` with head dimension `2` against single-head `k,v,r` broadcasts
silently through the `L == 1` path and the engine returns an output with
two heads. -/
theorem C9_counterexample :
    (constT 1 2 1 1 (1 : ℝ)).d1 ≠ (constT 1 1 1 1 (1 : ℝ)).d1 ∧
    Option.map (fun p : Tensor4 × Tensor4 => p.1.d1)
      (rwkv_inner (constT 1 1 1 1 1) (constT 1 1 1 1 1) (constT 1 1 1 1 1)
        (constT 1 1 1 1 1) (constT 1 2 1 1 1) (constT 1 1 1 1 1) 32
        PrecisionDtype.float32) = some 2 :=
  ⟨by decide, rfl⟩

/-! ## Claim C2: the reference recurrence formulas -/

/-- C2: `rwkv5_1_recurrent` produces one output row per timestep with
`out[t] = r[t] @ (kv_state_t + u ⊙ (k[t]ᵀ @ v[t]))`, updates the state by
`kv_state ← (w[t] ⊙ kv_state) + k[t]ᵀ @ v[t]`, and returns the concatenated
outputs with the final state. -/
theorem C2_recurrent_formula (K L : ℕ) (r k v w : ℕ → ℕ → ℝ) (u : ℕ → ℝ)
    (kv0 : ℕ → ℕ → ℝ) :
    (rwkv5_1_recurrent K L r k v w u kv0).1.length = L ∧
    (∀ t, t < L → (rwkv5_1_recurrent K L r k v w u kv0).1.getD t (fun _ => 0) =
      fun j => ∑ i ∈ Finset.range K,
        r t i * (refStates k v w kv0 t i j + u i * (k t i * v t j))) ∧
    (∀ t i j, refStates k v w kv0 (t + 1) i j =
      w t i * refStates k v w kv0 t i j + k t i * v t j) ∧
    (rwkv5_1_recurrent K L r k v w u kv0).2 = refStates k v w kv0 L :=
  ⟨rwkv5_1_recurrent_length K L r k v w u kv0,
    fun t ht => rwkv5_1_recurrent_getD K L r k v w u kv0 t ht,
    fun _ _ _ => rfl,
    rwkv5_1_recurrent_snd K L r k v w u kv0⟩

/-! ## Claim C5: the precision-dependent clamp floor -/

/-- C5: the decay is clamped to `precision_min_val` before the move to log
space, and the floor is exactly `0.005` in single precision and exactly
`1e-10` in double precision (`rwkv_inner.py` lines 37-45). -/
theorem C5_precision_floor :
    precision_min_val PrecisionDtype.float32 = 0.005 ∧
    precision_min_val PrecisionDtype.float64 = 1e-10 ∧
    ∀ (dt : PrecisionDtype) (w : ℕ → ℕ → ℝ) (t i : ℕ),
      w_log dt w t i = Real.log (max (w t i) (precision_min_val dt)) :=
  ⟨rfl, rfl, fun _ _ _ _ => rfl⟩

/-! ## Claim C6: silent clamping of small decay values -/

/-- C6 (amended): decay values at or below the floor never raise an error;
on the chunked (`L > 1`) path they are silently clamped up to the floor
before every use, but the `L == 1` fast path uses the decay exactly as
given, with no clamping at all (it returns `w * kv_state + kv` for the raw
`w`, even `w = 0`). -/
theorem C6_clamp_behavior (dt : PrecisionDtype) (w : ℕ → ℕ → ℝ) (t i : ℕ)
    (hle : w t i ≤ precision_min_val dt) :
    w_clamped dt w t i = precision_min_val dt ∧
    w_log dt w t i = Real.log (precision_min_val dt) ∧
    ∀ ρ κ ν ω υ σ : ℝ,
      rwkv_inner (constT 1 1 1 1 ρ) (constT 1 1 1 1 κ) (constT 1 1 1 1 ν)
        (constT 1 1 1 1 ω) (constT 1 1 1 1 υ) (constT 1 1 1 1 σ) 32 dt =
        some (constT 1 1 1 1 (ρ * (σ + υ * (κ * ν))),
          constT 1 1 1 1 (ω * σ + κ * ν)) := by
  have h1 : w_clamped dt w t i = precision_min_val dt := max_eq_right hle
  exact ⟨h1, by rw [w_log, h1],
    fun ρ κ ν ω υ σ => rwkv_inner_L1_scalar ρ κ ν ω υ σ 32 dt⟩

/-- C6 witness: concrete instance at the floor itself. -/
theorem C6_witness :
    w_clamped PrecisionDtype.float32
        (fun _ _ => precision_min_val PrecisionDtype.float32) 0 0 =
      precision_min_val PrecisionDtype.float32 :=
  (C6_clamp_behavior PrecisionDtype.float32
    (fun _ _ => precision_min_val PrecisionDtype.float32) 0 0 (le_refl _)).1

/-- C6 counterexample: with `L = 1`, decay `0` (below either floor) and
state `1`, the engine returns the state `0 * 1 + 0 * 0 = 0`: the decay was
used raw.  Had it been "silently clamped up to the floor before being used
in the state update", the state would have been
`max 0 precision_min_val * 1 + 0 * 0 ≠ 0`. -/
theorem C6_counterexample :
    Option.map (fun p : Tensor4 × Tensor4 => p.2.data 0 0 0 0)
      (rwkv_inner (constT 1 1 1 1 1) (constT 1 1 1 1 0) (constT 1 1 1 1 0)
        (constT 1 1 1 1 0) (constT 1 1 1 1 0) (constT 1 1 1 1 1) 32
        PrecisionDtype.float32) = some ((0 : ℝ) * 1 + 0 * 0) ∧
    (0 : ℝ) * 1 + 0 * 0 ≠
      max 0 (precision_min_val PrecisionDtype.float32) * 1 + 0 * 0 := by
  constructor
  · rw [rwkv_inner_L1_scalar 1 0 0 0 0 1 32 PrecisionDtype.float32]
    rfl
  · have hmax : max (0 : ℝ) (precision_min_val PrecisionDtype.float32) =
        precision_min_val PrecisionDtype.float32 :=
      max_eq_right (by norm_num [precision_min_val])
    rw [hmax]
    norm_num [precision_min_val]

/-! ## Claim C1: chunked engine vs reference engine -/

/-- C1 (amended): for every *even* chunk length `T` dividing `L` (an odd
`T`, including the always-dividing `T = 1`, crashes instead — see the
counterexample) and decay at or above the clamp floor, the chunked engine's
outputs and final state equal the reference engine's exactly (exact real
semantics; in floating point this is equality up to rounding, well within
the stated `1e-3` tolerance). -/
theorem C1_chunked_equals_recurrent_even_T (dt : PrecisionDtype) (T K L : ℕ)
    (r k v w : ℕ → ℕ → ℝ) (u : ℕ → ℝ) (kv0 : ℕ → ℕ → ℝ)
    (hT : 0 < T) (hTe : Even T) (hL : T ∣ L)
    (hw : ∀ t i, precision_min_val dt ≤ w t i) :
    (∀ t, t < L → ∀ j,
      (rwkv_inner_chunked dt T K L r k v w u kv0).1 t j =
        (rwkv5_1_recurrent K L r k v w u kv0).1.getD t (fun _ => 0) j) ∧
    (∀ i j, (rwkv_inner_chunked dt T K L r k v w u kv0).2 i j =
      (rwkv5_1_recurrent K L r k v w u kv0).2 i j) :=
  chunked_matches_recurrent dt T K L r k v w u kv0 hT hTe hL hw

/-- C1 witness: `L = 2`, `T = 2`, one channel, decay at the floor. -/
theorem C1_witness :
    ((0 : ℕ) < 2 ∧ Even 2 ∧ 2 ∣ 2) ∧
    (rwkv_inner_chunked PrecisionDtype.float32 2 1 2 (fun _ _ => 1)
        (fun _ _ => 1) (fun _ _ => 1)
        (fun _ _ => precision_min_val PrecisionDtype.float32) (fun _ => 1)
        (fun _ _ => 0)).2 0 0 =
      (rwkv5_1_recurrent 1 2 (fun _ _ => 1) (fun _ _ => 1) (fun _ _ => 1)
        (fun _ _ => precision_min_val PrecisionDtype.float32) (fun _ => 1)
        (fun _ _ => 0)).2 0 0 :=
  ⟨⟨by decide, by decide, by decide⟩,
    (C1_chunked_equals_recurrent_even_T PrecisionDtype.float32 2 1 2
      (fun _ _ => 1) (fun _ _ => 1) (fun _ _ => 1)
      (fun _ _ => precision_min_val PrecisionDtype.float32) (fun _ => 1)
      (fun _ _ => 0) (by decide) (by decide) (by decide)
      (fun _ _ => le_refl _)).2 0 0⟩

/-- C1 counterexample: the claim as stated quantifies over *every* `T`
dividing `L`.  `T = 1` divides `L = 2`, yet on this fully valid input the
chunked engine returns nothing at all (the `(…,N,2,0,K)` reshape fails), so
its result cannot match the reference engine's within any tolerance. -/
theorem C1_counterexample :
    rwkv_inner (constT 1 1 2 1 1) (constT 1 1 2 1 1) (constT 1 1 2 1 1)
      (constT 1 1 2 1 1) (constT 1 1 1 1 1) (constT 1 1 1 1 0) 1
      PrecisionDtype.float32 = none := rfl

/-! ## Claim C7: chunk-size invariance -/

/-- C7 (amended): for a fixed input, any two *even* chunk lengths dividing
`L` give identical outputs and final state (odd divisors, such as `T = 1`,
crash — see the counterexample). -/
theorem C7_chunk_size_invariance_even (dt : PrecisionDtype) (T1 T2 K L : ℕ)
    (r k v w : ℕ → ℕ → ℝ) (u : ℕ → ℝ) (kv0 : ℕ → ℕ → ℝ)
    (h1 : 0 < T1) (h1e : Even T1) (hd1 : T1 ∣ L)
    (h2 : 0 < T2) (h2e : Even T2) (hd2 : T2 ∣ L)
    (hw : ∀ t i, precision_min_val dt ≤ w t i) :
    (∀ t, t < L → ∀ j,
      (rwkv_inner_chunked dt T1 K L r k v w u kv0).1 t j =
        (rwkv_inner_chunked dt T2 K L r k v w u kv0).1 t j) ∧
    (∀ i j, (rwkv_inner_chunked dt T1 K L r k v w u kv0).2 i j =
      (rwkv_inner_chunked dt T2 K L r k v w u kv0).2 i j) := by
  have hA := chunked_matches_recurrent dt T1 K L r k v w u kv0 h1 h1e hd1 hw
  have hB := chunked_matches_recurrent dt T2 K L r k v w u kv0 h2 h2e hd2 hw
  exact ⟨fun t ht j => (hA.1 t ht j).trans (hB.1 t ht j).symm,
    fun i j => (hA.2 i j).trans (hB.2 i j).symm⟩

/-- C7 witness: `L = 4` with even divisors `T1 = 2`, `T2 = 4`. -/
theorem C7_witness :
    ((0 : ℕ) < 2 ∧ Even 2 ∧ 2 ∣ 4 ∧ (0 : ℕ) < 4 ∧ Even 4 ∧ 4 ∣ 4) ∧
    (rwkv_inner_chunked PrecisionDtype.float32 2 1 4 (fun _ _ => 1)
        (fun _ _ => 1) (fun _ _ => 1)
        (fun _ _ => precision_min_val PrecisionDtype.float32) (fun _ => 1)
        (fun _ _ => 0)).2 0 0 =
      (rwkv_inner_chunked PrecisionDtype.float32 4 1 4 (fun _ _ => 1)
        (fun _ _ => 1) (fun _ _ => 1)
        (fun _ _ => precision_min_val PrecisionDtype.float32) (fun _ => 1)
        (fun _ _ => 0)).2 0 0 :=
  ⟨⟨by decide, by decide, by decide, by decide, by decide, by decide⟩,
    (C7_chunk_size_invariance_even PrecisionDtype.float32 2 4 1 4
      (fun _ _ => 1) (fun _ _ => 1) (fun _ _ => 1)
      (fun _ _ => precision_min_val PrecisionDtype.float32) (fun _ => 1)
      (fun _ _ => 0) (by decide) (by decide) (by decide) (by decide)
      (by decide) (by decide) (fun _ _ => le_refl _)).2 0 0⟩

/-- C7 counterexample: the claim as stated allows any divisors of `L`,
e.g. `T ∈ {1, 2, 4, 8}` for `L = 8`.  With `T = 1` the engine returns
nothing, while `T = 2` returns a result, so "varying `T` among divisors
does not change the output" fails already because the `T = 1` run has no
output. -/
theorem C7_counterexample :
    rwkv_inner (constT 1 1 8 1 1) (constT 1 1 8 1 1) (constT 1 1 8 1 1)
      (constT 1 1 8 1 1) (constT 1 1 1 1 1) (constT 1 1 1 1 0) 1
      PrecisionDtype.float32 = none ∧
    (rwkv_inner (constT 1 1 8 1 1) (constT 1 1 8 1 1) (constT 1 1 8 1 1)
      (constT 1 1 8 1 1) (constT 1 1 1 1 1) (constT 1 1 1 1 0) 2
      PrecisionDtype.float32).isSome = true :=
  ⟨rfl, rfl⟩

/-! ## Claim C8: segment composition / streaming -/

/-- C8 (amended): splitting a sequence and feeding the first segment's
final state into the second reproduces the full run.  The first conjunct —
the reference engine — holds unconditionally, at *any* split point `L1`,
`L2`; the second — the chunked engine, exact in exact-real semantics —
holds under the inner hypotheses that each segment length is a multiple of
the even chunk length.  An arbitrary split point can make the chunked
engine crash on a segment (see the counterexample), which is what
restricts the chunked half of the statement. -/
theorem C8_segment_composition (dt : PrecisionDtype) (T K L1 L2 : ℕ)
    (r k v w : ℕ → ℕ → ℝ) (u : ℕ → ℝ) (kv0 : ℕ → ℕ → ℝ) :
    (rwkv5_1_recurrent K (L1 + L2) r k v w u kv0 =
      ((rwkv5_1_recurrent K L1 r k v w u kv0).1 ++
        (rwkv5_1_recurrent K L2 (shiftf L1 r) (shiftf L1 k) (shiftf L1 v)
          (shiftf L1 w) u (rwkv5_1_recurrent K L1 r k v w u kv0).2).1,
        (rwkv5_1_recurrent K L2 (shiftf L1 r) (shiftf L1 k) (shiftf L1 v)
          (shiftf L1 w) u (rwkv5_1_recurrent K L1 r k v w u kv0).2).2)) ∧
    (0 < T → Even T → T ∣ L1 → T ∣ L2 →
      (∀ t i, precision_min_val dt ≤ w t i) →
      (∀ t, t < L2 → ∀ j,
        (rwkv_inner_chunked dt T K (L1 + L2) r k v w u kv0).1 (L1 + t) j =
          (rwkv_inner_chunked dt T K L2 (shiftf L1 r) (shiftf L1 k)
            (shiftf L1 v) (shiftf L1 w) u
            (rwkv_inner_chunked dt T K L1 r k v w u kv0).2).1 t j) ∧
      (∀ i j, (rwkv_inner_chunked dt T K (L1 + L2) r k v w u kv0).2 i j =
        (rwkv_inner_chunked dt T K L2 (shiftf L1 r) (shiftf L1 k)
          (shiftf L1 v) (shiftf L1 w) u
          (rwkv_inner_chunked dt T K L1 r k v w u kv0).2).2 i j)) := by
  have happ := rwkv5_1_recurrent_append K L1 L2 r k v w u kv0
  refine ⟨happ, ?_⟩
  intro hT hTe h1 h2 hw
  have hS1 : (rwkv_inner_chunked dt T K L1 r k v w u kv0).2 =
      (rwkv5_1_recurrent K L1 r k v w u kv0).2 :=
    funext fun i => funext fun j =>
      (chunked_matches_recurrent dt T K L1 r k v w u kv0 hT hTe h1 hw).2 i j
  have hw2 : ∀ t i, precision_min_val dt ≤ shiftf L1 w t i := fun t i => hw _ _
  have hfull := chunked_matches_recurrent dt T K (L1 + L2) r k v w u kv0 hT hTe
    (dvd_add h1 h2) hw
  have hsec := chunked_matches_recurrent dt T K L2 (shiftf L1 r) (shiftf L1 k)
    (shiftf L1 v) (shiftf L1 w) u
    (rwkv_inner_chunked dt T K L1 r k v w u kv0).2 hT hTe h2 hw2
  rw [hS1] at hsec
  have hlen1 : (rwkv5_1_recurrent K L1 r k v w u kv0).1.length = L1 :=
    rwkv5_1_recurrent_length K L1 r k v w u kv0
  refine ⟨?_, ?_⟩
  · intro t ht j
    have hgd : (rwkv5_1_recurrent K (L1 + L2) r k v w u kv0).1.getD (L1 + t)
        (fun _ => 0) =
        (rwkv5_1_recurrent K L2 (shiftf L1 r) (shiftf L1 k) (shiftf L1 v)
          (shiftf L1 w) u (rwkv5_1_recurrent K L1 r k v w u kv0).2).1.getD t
          (fun _ => 0) := by
      rw [happ]
      show ((rwkv5_1_recurrent K L1 r k v w u kv0).1 ++ _).getD (L1 + t) _ = _
      rw [List.getD_append_right _ _ _ _ (by omega : (rwkv5_1_recurrent K L1
        r k v w u kv0).1.length ≤ L1 + t), hlen1, Nat.add_sub_cancel_left]
    rw [hfull.1 (L1 + t) (by omega) j, hgd, ← hsec.1 t ht j]
    rw [hS1]
  · intro i j
    have hsnd : (rwkv5_1_recurrent K (L1 + L2) r k v w u kv0).2 =
        (rwkv5_1_recurrent K L2 (shiftf L1 r) (shiftf L1 k) (shiftf L1 v)
          (shiftf L1 w) u (rwkv5_1_recurrent K L1 r k v w u kv0).2).2 := by
      rw [happ]
    rw [hfull.2 i j, hsnd, ← hsec.2 i j, hS1]

/-- C8 witness: the unconditional reference arm at the uneven split
`8 = 5 + 3`, and the chunked arm at `T = 2`, `L1 = L2 = 2` with decay at
the floor. -/
theorem C8_witness :
    (rwkv5_1_recurrent 1 (5 + 3) (fun _ _ => 1) (fun _ _ => 1) (fun _ _ => 1)
        (fun _ _ => precision_min_val PrecisionDtype.float32) (fun _ => 1)
        (fun _ _ => 0) =
      ((rwkv5_1_recurrent 1 5 (fun _ _ => 1) (fun _ _ => 1) (fun _ _ => 1)
          (fun _ _ => precision_min_val PrecisionDtype.float32) (fun _ => 1)
          (fun _ _ => 0)).1 ++
        (rwkv5_1_recurrent 1 3 (shiftf 5 (fun _ _ => 1))
          (shiftf 5 (fun _ _ => 1)) (shiftf 5 (fun _ _ => 1))
          (shiftf 5 (fun _ _ => precision_min_val PrecisionDtype.float32))
          (fun _ => 1)
          (rwkv5_1_recurrent 1 5 (fun _ _ => 1) (fun _ _ => 1) (fun _ _ => 1)
            (fun _ _ => precision_min_val PrecisionDtype.float32)
            (fun _ => 1) (fun _ _ => 0)).2).1,
        (rwkv5_1_recurrent 1 3 (shiftf 5 (fun _ _ => 1))
          (shiftf 5 (fun _ _ => 1)) (shiftf 5 (fun _ _ => 1))
          (shiftf 5 (fun _ _ => precision_min_val PrecisionDtype.float32))
          (fun _ => 1)
          (rwkv5_1_recurrent 1 5 (fun _ _ => 1) (fun _ _ => 1) (fun _ _ => 1)
            (fun _ _ => precision_min_val PrecisionDtype.float32)
            (fun _ => 1) (fun _ _ => 0)).2).2)) ∧
    ((0 : ℕ) < 2 ∧ Even 2 ∧ 2 ∣ 2) ∧
    (rwkv_inner_chunked PrecisionDtype.float32 2 1 (2 + 2) (fun _ _ => 1)
        (fun _ _ => 1) (fun _ _ => 1)
        (fun _ _ => precision_min_val PrecisionDtype.float32) (fun _ => 1)
        (fun _ _ => 0)).2 0 0 =
      (rwkv_inner_chunked PrecisionDtype.float32 2 1 2
        (shiftf 2 (fun _ _ => 1)) (shiftf 2 (fun _ _ => 1))
        (shiftf 2 (fun _ _ => 1))
        (shiftf 2 (fun _ _ => precision_min_val PrecisionDtype.float32))
        (fun _ => 1)
        (rwkv_inner_chunked PrecisionDtype.float32 2 1 2 (fun _ _ => 1)
          (fun _ _ => 1) (fun _ _ => 1)
          (fun _ _ => precision_min_val PrecisionDtype.float32) (fun _ => 1)
          (fun _ _ => 0)).2).2 0 0 :=
  ⟨(C8_segment_composition PrecisionDtype.float32 2 1 5 3 (fun _ _ => 1)
      (fun _ _ => 1) (fun _ _ => 1)
      (fun _ _ => precision_min_val PrecisionDtype.float32) (fun _ => 1)
      (fun _ _ => 0)).1,
    ⟨by decide, by decide, by decide⟩,
    ((C8_segment_composition PrecisionDtype.float32 2 1 2 2 (fun _ _ => 1)
      (fun _ _ => 1) (fun _ _ => 1)
      (fun _ _ => precision_min_val PrecisionDtype.float32) (fun _ => 1)
      (fun _ _ => 0)).2 (by decide) (by decide) (by decide) (by decide)
      (fun _ _ => le_refl _)).2 0 0⟩

/-- C8 counterexample: the claim as stated allows *any* split point.  With
chunk length `4`, the full `L = 8` run returns a result, but the first
segment of the split `8 = 5 + 3` returns nothing (the `5 % 4 ≠ 0` fallback
sets `T = 1` and crashes), so its final state cannot be fed onward and the
claimed streaming equality fails at this split. -/
theorem C8_counterexample :
    (rwkv_inner (constT 1 1 8 1 1) (constT 1 1 8 1 1) (constT 1 1 8 1 1)
      (constT 1 1 8 1 1) (constT 1 1 1 1 1) (constT 1 1 1 1 0) 4
      PrecisionDtype.float32).isSome = true ∧
    rwkv_inner (constT 1 1 5 1 1) (constT 1 1 5 1 1) (constT 1 1 5 1 1)
      (constT 1 1 5 1 1) (constT 1 1 1 1 1) (constT 1 1 1 1 0) 4
      PrecisionDtype.float32 = none :=
  ⟨rfl, rfl⟩

end GptCore
